import Mathlib

/-!
Shallow embedding of `src/storage/repository.go` (package `storage`): a
content-addressable object store backed by a directory tree, with an alias
layer mapping names to IDs.

Modelling conventions:
- Go byte slices (`[]byte`, including `ID` and file contents) are `List Nat`
  with each element a byte value (`< 256` where the claim needs it).
- The filesystem is an explicit state `FS`: an association list from paths to
  file contents plus a list of existing directories.  A path is a list of
  segments; `path.Join` drops empty elements, modelled by `pathJoin`.
- Fallible filesystem primitives that can fail for reasons outside the state
  (tempfile creation, copy, close, rename, create, write, spurious open
  errors) take explicit environment flags; `true` means the OS operation
  succeeds.  Failures the state determines (file absent) are computed.
- Go's multiple-return `(T, error)` becomes `Except Err T`; operations that
  mutate the filesystem also return the new `FS`.
-/

namespace Storage

/-- Error values a repository operation can surface, following the Go code:
`os.IsNotExist`-class errors, other I/O errors, `io.EOF` /
`io.ErrUnexpectedEOF` from `io.ReadFull`, `hex.ErrLength` /
`hex.InvalidByteError` from the `encoding/hex` package, and the package-level
`ErrIDDoesNotExist`. -/
inductive Err where
  | notExist
  | ioErr
  | eof
  | unexpectedEOF
  | errLength
  | invalidByte
  | idDoesNotExist
  deriving DecidableEq, Repr

/-- The spec's `CorruptDataError` class: truncated or malformed hex text
(short read from `io.ReadFull`, or a decode failure from `encoding/hex`). -/
def Err.isCorrupt : Err → Bool
  | .eof => true
  | .unexpectedEOF => true
  | .errLength => true
  | .invalidByte => true
  | _ => false

/-- `hextable`-based digit of `encoding/hex`: `"0123456789abcdef"`, as a byte. -/
def hexDigitByte (n : Nat) : Nat :=
  if n < 10 then 48 + n else 87 + n

/-- `hex.EncodeToString` / `hex.Encode` of Go, over byte values: each byte `b`
becomes the two ASCII bytes for `b >> 4` and `b & 0x0f`. -/
def hexEncodeBytes : List Nat → List Nat
  | [] => []
  | b :: rest => hexDigitByte (b / 16) :: hexDigitByte (b % 16) :: hexEncodeBytes rest

/-- Go `encoding/hex.fromHexChar`: value of an ASCII hex digit byte
(`0-9`, `a-f`, `A-F`). -/
def fromHexChar (b : Nat) : Option Nat :=
  if 48 ≤ b ∧ b ≤ 57 then some (b - 48)
  else if 97 ≤ b ∧ b ≤ 102 then some (b - 87)
  else if 65 ≤ b ∧ b ≤ 70 then some (b - 55)
  else none

/-- Go `hex.Decode`/`hex.DecodeString` over the source bytes: decode pairs of
hex digits; an invalid digit yields `InvalidByteError`; a trailing odd byte
yields `ErrLength` when the stray byte is itself a valid digit and
`InvalidByteError` otherwise (Go reports the invalid character first). -/
def hexDecodeBytes : List Nat → Except Err (List Nat)
  | [] => .ok []
  | [a] => if (fromHexChar a).isSome then .error .errLength else .error .invalidByte
  | a :: b :: rest =>
    match fromHexChar a, fromHexChar b with
    | some hi, some lo =>
      match hexDecodeBytes rest with
      | .ok bs => .ok ((hi * 16 + lo) :: bs)
      | .error e => .error e
    | _, _ => .error .invalidByte

/-- Valid hex text of even length: what `hex.DecodeString` accepts. -/
def isValidHex (s : List Nat) : Bool :=
  s.length % 2 == 0 && s.all (fun b => (fromHexChar b).isSome)

/-- `ID` references content within a repository (a digest byte sequence). -/
def ID := List Nat

/-- `ID.String()`: the lowercase-hex text of the ID, as its byte sequence
(Go strings are byte sequences). -/
def ID.string (id : List Nat) : List Nat :=
  hexEncodeBytes id

/-- `ID.String()` as a Lean `String`, for use as a filename segment. -/
def hexName (id : List Nat) : String :=
  String.mk ((hexEncodeBytes id).map Char.ofNat)

/-- `ID.Equal`: byte-wise equality (`bytes.Equal`). -/
def ID.Equal (id other : List Nat) : Bool :=
  decide (id = other)

/-- `ID.EqualString`: decode the argument as hex (`hex.DecodeString`); on
failure propagate the decode error, otherwise delegate to `Equal`. -/
def ID.EqualString (id : List Nat) (other : List Nat) : Except Err Bool :=
  match hexDecodeBytes other with
  | .error e => .error e
  | .ok s => .ok (ID.Equal id s)

/-- Uppercase hex digit of `net/url` percent-escaping (`"0123456789ABCDEF"`). -/
def upperHexDigit (n : Nat) : Nat :=
  if n < 10 then 48 + n else 55 + n

/-- Byte kept unescaped by `url.QueryEscape`: alphanumerics and `-`, `_`,
`.`, `~`. -/
def queryUnescaped (b : Nat) : Bool :=
  (48 ≤ b && b ≤ 57) || (65 ≤ b && b ≤ 90) || (97 ≤ b && b ≤ 122) ||
    b == 45 || b == 46 || b == 95 || b == 126

/-- `url.QueryEscape` of one byte: space becomes `+`, unescaped bytes pass
through, everything else becomes `%XX` with uppercase hex. -/
def queryEscapeByte (b : Nat) : List Nat :=
  if b = 32 then [43]
  else if queryUnescaped b then [b]
  else [37, upperHexDigit (b / 16 % 16), upperHexDigit (b % 16)]

/-- `Name` stands for the alias given to an ID (a Go string, i.e. bytes). -/
def Name := List Nat

/-- `Name.Encode()`: `url.QueryEscape` of the name's bytes, rendered as the
filename segment.  (Each escaped byte is ASCII, so byte values and character
codes coincide.) -/
def Name.Encode (n : List Nat) : String :=
  String.mk ((n.flatMap queryEscapeByte).map Char.ofNat)

/-- A path: the list of its segments. -/
abbrev Path := List String

/-- Go `path.Join` over already-split segments: empty elements are dropped. -/
def pathJoin (segs : List String) : Path :=
  segs.filter (fun s => s ≠ "")

/-- The on-disk state: existing directories, and files as an association list
from path to content bytes. -/
structure FS where
  dirs : List Path
  files : List (Path × List Nat)

/-- Lookup of a file's content by path. -/
def lookupFile : List (Path × List Nat) → Path → Option (List Nat)
  | [], _ => none
  | (q, c) :: rest, p => if q = p then some c else lookupFile rest p

/-- Remove every entry for a path. -/
def eraseKey : List (Path × List Nat) → Path → List (Path × List Nat)
  | [], _ => []
  | (q, c) :: rest, p =>
    if q = p then eraseKey rest p else (q, c) :: eraseKey rest p

/-- Number of directory entries carrying a path. -/
def countKey : List (Path × List Nat) → Path → Nat
  | [], _ => 0
  | (q, _) :: rest, p => (if q = p then 1 else 0) + countKey rest p

def FS.getFile (fs : FS) (p : Path) : Option (List Nat) :=
  lookupFile fs.files p

/-- Overwrite-or-create a file at a path (the effect of a completed write or
of `os.Rename` at its destination). -/
def FS.setFile (fs : FS) (p : Path) (c : List Nat) : FS :=
  { fs with files := (p, c) :: eraseKey fs.files p }

/-- Delete a file at a path. -/
def FS.removeFile (fs : FS) (p : Path) : FS :=
  { fs with files := eraseKey fs.files p }

def FS.isDir (fs : FS) (p : Path) : Bool :=
  decide (p ∈ fs.dirs)

/-- Result of `os.Open`: a file handle (with the readable content), a handle
on a directory (opening succeeds, reads will fail), absence
(`os.IsNotExist`), or an environment-injected I/O failure. -/
inductive OpenResult where
  | file (content : List Nat)
  | dir
  | absent
  | ioFail

/-- `os.Open`: `fail` injects an I/O failure from the environment; otherwise
the state decides between file, directory and absence. -/
def osOpen (fs : FS) (fail : Bool) (p : Path) : OpenResult :=
  if fail then .ioFail
  else match fs.getFile p with
    | some c => .file c
    | none => if fs.isDir p then .dir else .absent

/-- Path constants of the source. -/
def objectPath : String := "objects"

def refPath : String := "refs"

def tempPath : String := "tmp"

/-- `Dir` is the directory-backed repository.  The Go field `hash` is a
`hash.Hash` constructor; it is modelled by the digest function `hash` it
computes together with its `Size()` value `hashSize`. -/
structure Dir where
  path : Path
  hash : List Nat → List Nat
  hashSize : Nat

/-- `os.MkdirAll`: the directory and all its parents exist afterwards. -/
def mkdirAll (fs : FS) (p : Path) : FS :=
  { fs with dirs := (List.range (p.length + 1)).map (fun k => p.take k) ++ fs.dirs }

/-- `Dir.create`: make the root, `objects/`, `refs/` and `tmp/` directories. -/
def Dir.create (d : Dir) (fs : FS) : FS :=
  [d.path, pathJoin (d.path ++ [objectPath]), pathJoin (d.path ++ [refPath]),
    pathJoin (d.path ++ [tempPath])].foldl mkdirAll fs

/-- `path.Join(r.path, objectPath, id.String())`. -/
def Dir.objectFile (d : Dir) (id : List Nat) : Path :=
  pathJoin (d.path ++ [objectPath, hexName id])

/-- `path.Join(r.path, refPath, Name(name).Encode())`. -/
def Dir.refFile (d : Dir) (n : List Nat) : Path :=
  pathJoin (d.path ++ [refPath, Name.Encode n])

/-- `path.Join(r.path, tempPath, name)` for the tempfile's chosen name. -/
def Dir.tempFile (d : Dir) (name : String) : Path :=
  pathJoin (d.path ++ [tempPath, name])

/-- Environment choices for one `Put` call: the name `ioutil.TempFile` picks,
and whether each fallible step (tempfile creation, `io.Copy`, `Close`,
`os.Rename`) succeeds; `copied` is how many bytes a failing copy persisted. -/
structure PutEnv where
  tempName : String
  tempOk : Bool
  copyOk : Bool
  copied : Nat
  closeOk : Bool
  renameOk : Bool

def PutEnv.allOk (env : PutEnv) : Bool :=
  env.tempOk && env.copyOk && env.closeOk && env.renameOk

/-- `Dir.Put`: save contents to a tempfile in `tmp/`, hashing while writing,
then rename to `objects/<hex(id)>`.

The hashing pass is the Digesting Reader of the external `hashing` package,
which is not under `src/`.  Modelled from the spec: every byte copied is fed
to the hash accumulator exactly once and in order, so after a complete copy
of the stream `b` the finalized digest `rd.Hash()` equals `hash(b)` for the
repository's configured hash function; a failed copy never reaches the
hashing step's result (`Put` returns before using it). -/
def Dir.Put (d : Dir) (b : List Nat) (fs : FS) (env : PutEnv) :
    Except Err (List Nat) × FS :=
  -- ioutil.TempFile(path.Join(r.path, tempPath), "temp-")
  if env.tempOk = false then (.error .ioErr, fs)
  else
    let tmp := d.tempFile env.tempName
    let fs1 := fs.setFile tmp []
    -- io.Copy(file, rd) through hashing.NewReader
    if env.copyOk = false then (.error .ioErr, fs1.setFile tmp (b.take env.copied))
    else
      let fs2 := fs1.setFile tmp b
      -- file.Close()
      if env.closeOk = false then (.error .ioErr, fs2)
      else
        -- id := ID(rd.Hash()); os.Rename(file.Name(), filename)
        let id := d.hash b
        if env.renameOk = false then (.error .ioErr, fs2)
        else (.ok id, (fs2.removeFile tmp).setFile (d.objectFile id) b)

/-- `Dir.Test`: try to open `objects/<hex(id)>`; absence (`os.IsNotExist`)
is `(false, nil)`, any other open failure is `(false, err)`, success is
`(true, nil)`. -/
def Dir.Test (d : Dir) (id : List Nat) (fs : FS) (fail : Bool) :
    Bool × Option Err :=
  match osOpen fs fail (d.objectFile id) with
  | .absent => (false, none)
  | .ioFail => (false, some .ioErr)
  | .file _ => (true, none)
  | .dir => (true, none)

/-- `Dir.Get`: open `objects/<hex(id)>` and return the reader.  The reader is
modelled by what reading it to the end yields: `some content` for a regular
file, `none` for a successfully opened directory (reads on it fail). -/
def Dir.Get (d : Dir) (id : List Nat) (fs : FS) (fail : Bool) :
    Except Err (Option (List Nat)) :=
  match osOpen fs fail (d.objectFile id) with
  | .file c => .ok (some c)
  | .dir => .ok none
  | .absent => .error .notExist
  | .ioFail => .error .ioErr

/-- `Dir.Remove`: `os.Remove` of `objects/<hex(id)>`; fails with the
not-exist error when the file is absent. -/
def Dir.Remove (d : Dir) (id : List Nat) (fs : FS) : Except Err Unit × FS :=
  match fs.getFile (d.objectFile id) with
  | some _ => (.ok (), fs.removeFile (d.objectFile id))
  | none => (.error .notExist, fs)

/-- `Dir.Unlink`: `os.Remove` of `refs/<encode(name)>`. -/
def Dir.Unlink (d : Dir) (n : List Nat) (fs : FS) : Except Err Unit × FS :=
  match fs.getFile (d.refFile n) with
  | some _ => (.ok (), fs.removeFile (d.refFile n))
  | none => (.error .notExist, fs)

/-- Environment choices for one `Link` call: whether the `Test` probe's open
hits a spurious I/O failure, whether `os.Create` succeeds, and whether the
write of the hex text succeeds. -/
structure LinkEnv where
  testFail : Bool
  createOk : Bool
  writeOk : Bool

/-- `Dir.Link`: check `Test(id)` (propagating its error, and returning
`ErrIDDoesNotExist` when the object is absent), then `os.Create` the alias
file (creation truncates) and write `hex.EncodeToString(id)` into it.  The
source discards the error returned by `f.Write`: a failed write leaves the
truncated file and `Link` still returns success. -/
def Dir.Link (d : Dir) (n : List Nat) (id : List Nat) (fs : FS) (env : LinkEnv) :
    Except Err Unit × FS :=
  match d.Test id fs env.testFail with
  | (_, some e) => (.error e, fs)
  | (exist, none) =>
    if exist = false then (.error .idDoesNotExist, fs)
    else if env.createOk = false then (.error .ioErr, fs)
    else
      let fs1 := fs.setFile (d.refFile n) []
      -- f.Write([]byte(hex.EncodeToString(id))): returned error is ignored
      if env.writeOk then (.ok (), fs1.setFile (d.refFile n) (hexEncodeBytes id))
      else (.ok (), fs1)

/-- `Dir.Resolve`: open `refs/<encode(name)>`, read exactly
`r.hash().Size() * 2` bytes with `io.ReadFull` (`io.EOF` on an empty file,
`io.ErrUnexpectedEOF` on a short one), and `hex.Decode` them into an ID.
A directory handle's reads fail, except that `io.ReadFull` with an empty
buffer performs no read at all. -/
def Dir.Resolve (d : Dir) (n : List Nat) (fs : FS) (fail : Bool) :
    Except Err (List Nat) :=
  match osOpen fs fail (d.refFile n) with
  | .absent => .error .notExist
  | .ioFail => .error .ioErr
  | .dir =>
    if d.hashSize * 2 = 0 then
      match hexDecodeBytes [] with
      | .error e => .error e
      | .ok id => .ok id
    else .error .ioErr
  | .file c =>
    if c.length < d.hashSize * 2 then
      .error (if c.length = 0 then .eof else .unexpectedEOF)
    else
      match hexDecodeBytes (c.take (d.hashSize * 2)) with
      | .error e => .error e
      | .ok id => .ok id

/-- A toy digest function used only to instantiate theorems at concrete
inputs: one byte, the content's length modulo 256 (its `Size()` is 1). -/
def lenHash (b : List Nat) : List Nat :=
  [b.length % 256]

def dWit : Dir :=
  ⟨["r"], lenHash, 1⟩

def fsEmpty : FS :=
  ⟨[], []⟩

def fsWit : FS :=
  dWit.create fsEmpty

def envOk : PutEnv :=
  ⟨"t1", true, true, 0, true, true⟩

def envOk2 : PutEnv :=
  ⟨"t2", true, true, 0, true, true⟩

/-- A repository state holding the single object `Put [7]` produced
(its ID under `lenHash` is `[1]`). -/
def fsObj : FS :=
  (dWit.Put [7] fsWit envOk).2

/-- `fsObj` with the alias `"x"` (byte `120`) linked to the object `[1]`. -/
def fsLinked : FS :=
  (dWit.Link [120] [1] fsObj ⟨false, true, true⟩).2

/-! ### Helper lemmas about the filesystem state -/

theorem lookupFile_eraseKey_self (l : List (Path × List Nat)) (p : Path) :
    lookupFile (eraseKey l p) p = none := by
  induction l with
  | nil => rfl
  | cons e rest ih =>
    obtain ⟨q, c⟩ := e
    by_cases h : q = p
    · simp [eraseKey, h, ih]
    · simp [eraseKey, lookupFile, h, ih]

theorem lookupFile_eraseKey_ne (l : List (Path × List Nat)) (p q : Path)
    (h : q ≠ p) : lookupFile (eraseKey l p) q = lookupFile l q := by
  induction l with
  | nil => rfl
  | cons e rest ih =>
    obtain ⟨r, c⟩ := e
    by_cases hr : r = p
    · subst hr
      have hrq : r ≠ q := fun hq => h hq.symm
      simp [eraseKey, lookupFile, hrq, ih]
    · by_cases hq : r = q
      · subst hq
        simp [eraseKey, lookupFile, hr]
      · simp [eraseKey, lookupFile, hr, hq, ih]

theorem getFile_setFile_self (fs : FS) (p : Path) (c : List Nat) :
    (fs.setFile p c).getFile p = some c := by
  simp [FS.setFile, FS.getFile, lookupFile]

theorem getFile_setFile_ne (fs : FS) (p q : Path) (c : List Nat) (h : q ≠ p) :
    (fs.setFile p c).getFile q = fs.getFile q := by
  have : p ≠ q := fun hpq => h hpq.symm
  simp [FS.setFile, FS.getFile, lookupFile, this, lookupFile_eraseKey_ne _ _ _ h]

theorem getFile_removeFile_self (fs : FS) (p : Path) :
    (fs.removeFile p).getFile p = none := by
  simp [FS.removeFile, FS.getFile, lookupFile_eraseKey_self]

theorem getFile_removeFile_ne (fs : FS) (p q : Path) (h : q ≠ p) :
    (fs.removeFile p).getFile q = fs.getFile q := by
  simp [FS.removeFile, FS.getFile, lookupFile_eraseKey_ne _ _ _ h]

theorem dirs_setFile (fs : FS) (p : Path) (c : List Nat) :
    (fs.setFile p c).dirs = fs.dirs := rfl

theorem dirs_removeFile (fs : FS) (p : Path) :
    (fs.removeFile p).dirs = fs.dirs := rfl

theorem countKey_eraseKey_self (l : List (Path × List Nat)) (p : Path) :
    countKey (eraseKey l p) p = 0 := by
  induction l with
  | nil => rfl
  | cons e rest ih =>
    obtain ⟨q, c⟩ := e
    by_cases h : q = p
    · simp [eraseKey, h, ih]
    · simp [eraseKey, countKey, h, ih]

theorem countKey_setFile_self (fs : FS) (p : Path) (c : List Nat) :
    countKey (fs.setFile p c).files p = 1 := by
  simp [FS.setFile, countKey, countKey_eraseKey_self]

/-! ### Helper lemmas about paths -/

theorem pathJoin_append (p q : List String) :
    pathJoin (p ++ q) = pathJoin p ++ pathJoin q := by
  simp [pathJoin, List.filter_append]

theorem pathJoin_pair_ne (p : List String) (a₁ a₂ b₁ b₂ : String)
    (ha₁ : a₁ ≠ "") (ha₂ : a₂ ≠ "") (hne : a₁ ≠ a₂) :
    pathJoin (p ++ [a₁, b₁]) ≠ pathJoin (p ++ [a₂, b₂]) := by
  intro h
  rw [pathJoin_append, pathJoin_append] at h
  have h₂ : pathJoin [a₁, b₁] = pathJoin [a₂, b₂] := List.append_cancel_left h
  have e₁ : pathJoin [a₁, b₁] = a₁ :: pathJoin [b₁] := by
    simp [pathJoin, ha₁]
  have e₂ : pathJoin [a₂, b₂] = a₂ :: pathJoin [b₂] := by
    simp [pathJoin, ha₂]
  rw [e₁, e₂] at h₂
  exact hne (List.cons.injEq .. ▸ h₂).1

theorem objectFile_ne_tempFile (d : Dir) (i : List Nat) (s : String) :
    d.objectFile i ≠ d.tempFile s := by
  exact pathJoin_pair_ne d.path objectPath tempPath (hexName i) s
    (by decide) (by decide) (by decide)

theorem refFile_ne_tempFile (d : Dir) (n : List Nat) (s : String) :
    d.refFile n ≠ d.tempFile s := by
  exact pathJoin_pair_ne d.path refPath tempPath (Name.Encode n) s
    (by decide) (by decide) (by decide)

theorem refFile_ne_objectFile (d : Dir) (n : List Nat) (i : List Nat) :
    d.refFile n ≠ d.objectFile i := by
  exact pathJoin_pair_ne d.path refPath objectPath (Name.Encode n) (hexName i)
    (by decide) (by decide) (by decide)

/-! ### Helper lemmas about hex encoding and decoding -/

theorem fromHexChar_hexDigitByte (n : Nat) (h : n < 16) :
    fromHexChar (hexDigitByte n) = some n := by
  unfold fromHexChar hexDigitByte
  split_ifs <;> (try congr 1) <;> omega

theorem hexDecode_hexEncode (bs : List Nat) (h : ∀ b ∈ bs, b < 256) :
    hexDecodeBytes (hexEncodeBytes bs) = .ok bs := by
  induction bs with
  | nil => rfl
  | cons b rest ih =>
    have hb : b < 256 := h b (by simp)
    have h1 : b / 16 < 16 := by omega
    have h2 : b % 16 < 16 := by omega
    have ihr := ih (fun x hx => h x (by simp [hx]))
    have hcons : hexEncodeBytes (b :: rest) =
        hexDigitByte (b / 16) :: hexDigitByte (b % 16) :: hexEncodeBytes rest := rfl
    rw [hcons]
    have hne : hexDigitByte (b / 16) :: hexDigitByte (b % 16) :: hexEncodeBytes rest ≠ [] := by
      simp
    unfold hexDecodeBytes
    simp [fromHexChar_hexDigitByte _ h1, fromHexChar_hexDigitByte _ h2, ihr]
    omega

theorem hexEncodeBytes_length (bs : List Nat) :
    (hexEncodeBytes bs).length = 2 * bs.length := by
  induction bs with
  | nil => rfl
  | cons b rest ih => simp [hexEncodeBytes, ih]; omega

/-- Two-at-a-time list induction, matching the recursion of `hexDecodeBytes`. -/
theorem twoStepInduction {motive : List Nat → Prop} (h0 : motive [])
    (h1 : ∀ a, motive [a])
    (h2 : ∀ a b rest, motive rest → motive (a :: b :: rest)) :
    ∀ l, motive l
  | [] => h0
  | [a] => h1 a
  | a :: b :: rest => h2 a b rest (twoStepInduction h0 h1 h2 rest)

theorem hexDecodeBytes_error_cases (s : List Nat) :
    ∀ e, hexDecodeBytes s = .error e → e = .errLength ∨ e = .invalidByte := by
  induction s using twoStepInduction with
  | h0 => intro e he; simp [hexDecodeBytes] at he
  | h1 a =>
    intro e he
    unfold hexDecodeBytes at he
    split_ifs at he <;> (cases he; simp)
  | h2 a b rest ih =>
    intro e he
    unfold hexDecodeBytes at he
    cases ha : fromHexChar a with
    | none => simp [ha] at he; cases he; simp
    | some hi =>
      cases hb : fromHexChar b with
      | none => simp [ha, hb] at he; cases he; simp
      | some lo =>
        simp only [ha, hb] at he
        cases hr : hexDecodeBytes rest with
        | ok bs => simp [hr] at he
        | error e₂ =>
          simp [hr] at he
          exact he ▸ ih e₂ hr

theorem hexDecodeBytes_error_corrupt (s : List Nat) :
    ∀ e, hexDecodeBytes s = .error e → e.isCorrupt = true := by
  intro e he
  rcases hexDecodeBytes_error_cases s e he with rfl | rfl <;> rfl

theorem hexDecodeBytes_ok_valid (s : List Nat) :
    ∀ t, hexDecodeBytes s = .ok t → isValidHex s = true := by
  induction s using twoStepInduction with
  | h0 => intro t _; rfl
  | h1 a =>
    intro t ht
    unfold hexDecodeBytes at ht
    split_ifs at ht
  | h2 a b rest ih =>
    intro t ht
    unfold hexDecodeBytes at ht
    cases ha : fromHexChar a with
    | none => simp [ha] at ht
    | some hi =>
      cases hb : fromHexChar b with
      | none => simp [ha, hb] at ht
      | some lo =>
        simp only [ha, hb] at ht
        cases hr : hexDecodeBytes rest with
        | error e => simp [hr] at ht
        | ok bs =>
          have hv := ih bs hr
          simp only [isValidHex, Bool.and_eq_true, beq_iff_eq, List.all_eq_true] at hv ⊢
          obtain ⟨hlen, hall⟩ := hv
          constructor
          · simp only [List.length_cons]; omega
          · intro x hx
            simp only [List.mem_cons] at hx
            rcases hx with rfl | rfl | hx
            · simp [ha]
            · simp [hb]
            · exact hall x hx

/-! ### Helper lemmas about directory creation and the existence probe -/

theorem getFile_create (d : Dir) (fs : FS) (q : Path) :
    (d.create fs).getFile q = fs.getFile q := rfl

theorem isDir_setFile (fs : FS) (p : Path) (c : List Nat) (q : Path) :
    (fs.setFile p c).isDir q = fs.isDir q := rfl

theorem isDir_removeFile (fs : FS) (p q : Path) :
    (fs.removeFile p).isDir q = fs.isDir q := rfl

theorem isDir_mkdirAll_self (fs : FS) (p : Path) :
    (mkdirAll fs p).isDir p = true := by
  simp only [mkdirAll, FS.isDir, decide_eq_true_eq, List.mem_append, List.mem_map,
    List.mem_range]
  exact Or.inl ⟨p.length, by omega, List.take_length p⟩

theorem isDir_mkdirAll_mono (fs : FS) (p q : Path) (h : fs.isDir q = true) :
    (mkdirAll fs p).isDir q = true := by
  simp only [mkdirAll, FS.isDir, decide_eq_true_eq, List.mem_append] at h ⊢
  exact Or.inr h

theorem isDir_create_objects (d : Dir) (fs : FS) :
    (d.create fs).isDir (pathJoin (d.path ++ [objectPath])) = true := by
  show (mkdirAll (mkdirAll (mkdirAll (mkdirAll fs d.path)
      (pathJoin (d.path ++ [objectPath]))) (pathJoin (d.path ++ [refPath])))
      (pathJoin (d.path ++ [tempPath]))).isDir (pathJoin (d.path ++ [objectPath])) = true
  apply isDir_mkdirAll_mono
  apply isDir_mkdirAll_mono
  exact isDir_mkdirAll_self _ _

theorem objectFile_nil (d : Dir) :
    d.objectFile [] = pathJoin (d.path ++ [objectPath]) := by
  unfold Dir.objectFile
  rw [pathJoin_append, pathJoin_append]
  congr 1

/-- With no injected failure, `Test` never reports an error (its second
component is always `nil`). -/
theorem test_nofail_snd (d : Dir) (i : List Nat) (fs : FS) :
    (d.Test i fs false).2 = none := by
  unfold Dir.Test osOpen
  cases hg : fs.getFile (d.objectFile i) with
  | some c => simp [hg]
  | none =>
    cases hd : fs.isDir (d.objectFile i) <;> simp [hg, hd]

/-! ### Claim theorems -/

/-- C1: for every byte sequence `b`, `Put(b)` returns an ID equal to the
digest of `b` under the repository's currently configured hash function, and
a subsequent `Get` of that ID returns a stream whose contents equal `b`
(whenever the underlying filesystem steps succeed). -/
theorem put_content_addressing (d : Dir) (b : List Nat) (fs : FS) (env : PutEnv)
    (h : env.allOk = true) :
    (d.Put b fs env).1 = .ok (d.hash b) ∧
    d.Get (d.hash b) (d.Put b fs env).2 false = .ok (some b) := by
  obtain ⟨name, t, c, n, cl, r⟩ := env
  simp only [PutEnv.allOk, Bool.and_eq_true] at h
  obtain ⟨⟨⟨ht, hc⟩, hcl⟩, hr⟩ := h
  subst ht; subst hc; subst hcl; subst hr
  have hget : (d.Put b fs ⟨name, true, true, n, true, true⟩).2.getFile
      (d.objectFile (d.hash b)) = some b := by
    simp [Dir.Put, getFile_setFile_self]
  exact ⟨by simp [Dir.Put], by simp [Dir.Get, osOpen, hget]⟩

theorem put_content_addressing_witness :
    envOk.allOk = true ∧
    ((dWit.Put [7] fsWit envOk).1 = .ok (dWit.hash [7]) ∧
      dWit.Get (dWit.hash [7]) (dWit.Put [7] fsWit envOk).2 false = .ok (some [7])) :=
  ⟨rfl, put_content_addressing dWit [7] fsWit envOk rfl⟩

/-- C2: calling `Put(b)` twice with the same bytes returns the same ID both
times, and afterwards the store holds exactly one file under that ID's name,
with content `b` (the second rename overwrote the first object with
byte-identical content). -/
theorem put_dedup_idempotent (d : Dir) (b : List Nat) (fs : FS) (e₁ e₂ : PutEnv)
    (h₁ : e₁.allOk = true) (h₂ : e₂.allOk = true) :
    (d.Put b fs e₁).1 = .ok (d.hash b) ∧
    (d.Put b (d.Put b fs e₁).2 e₂).1 = .ok (d.hash b) ∧
    countKey (d.Put b (d.Put b fs e₁).2 e₂).2.files (d.objectFile (d.hash b)) = 1 ∧
    (d.Put b (d.Put b fs e₁).2 e₂).2.getFile (d.objectFile (d.hash b)) = some b := by
  obtain ⟨n₁, t₁, c₁, k₁, l₁, r₁⟩ := e₁
  obtain ⟨n₂, t₂, c₂, k₂, l₂, r₂⟩ := e₂
  simp only [PutEnv.allOk, Bool.and_eq_true] at h₁ h₂
  obtain ⟨⟨⟨ht, hc⟩, hcl⟩, hr⟩ := h₁
  subst ht; subst hc; subst hcl; subst hr
  obtain ⟨⟨⟨ht, hc⟩, hcl⟩, hr⟩ := h₂
  subst ht; subst hc; subst hcl; subst hr
  refine ⟨by simp [Dir.Put], by simp [Dir.Put], ?_, ?_⟩
  · simp [Dir.Put, countKey_setFile_self]
  · simp [Dir.Put, getFile_setFile_self]

theorem put_dedup_idempotent_witness :
    envOk.allOk = true ∧ envOk2.allOk = true ∧
    ((dWit.Put [7] fsWit envOk).1 = .ok (dWit.hash [7]) ∧
      (dWit.Put [7] (dWit.Put [7] fsWit envOk).2 envOk2).1 = .ok (dWit.hash [7]) ∧
      countKey (dWit.Put [7] (dWit.Put [7] fsWit envOk).2 envOk2).2.files
        (dWit.objectFile (dWit.hash [7])) = 1 ∧
      (dWit.Put [7] (dWit.Put [7] fsWit envOk).2 envOk2).2.getFile
        (dWit.objectFile (dWit.hash [7])) = some [7]) :=
  ⟨rfl, rfl, put_dedup_idempotent dWit [7] fsWit envOk envOk2 rfl rfl⟩

/-- C4: `Put` publishes only via the final rename: whenever any step fails,
`Put` returns an error and the `objects/` entry of every ID is exactly as it
was before the call; a failure at the rename step itself leaves the written
temp file behind in `tmp/`. -/
theorem put_publish_only_by_rename (d : Dir) (b : List Nat) (fs : FS)
    (env : PutEnv) (h : env.allOk = false) :
    (d.Put b fs env).1 = .error .ioErr ∧
    (∀ i, (d.Put b fs env).2.getFile (d.objectFile i) = fs.getFile (d.objectFile i)) ∧
    (env.tempOk = true → env.copyOk = true → env.closeOk = true →
      (d.Put b fs env).2.getFile (d.tempFile env.tempName) = some b) := by
  obtain ⟨name, t, c, n, cl, r⟩ := env
  cases t with
  | false =>
    refine ⟨by simp [Dir.Put], fun i => by simp [Dir.Put], ?_⟩
    intro ht; cases ht
  | true =>
    cases c with
    | false =>
      refine ⟨by simp [Dir.Put], ?_, ?_⟩
      · intro i
        simp [Dir.Put, getFile_setFile_ne _ _ _ _ (objectFile_ne_tempFile d i name)]
      · intro _ hc; cases hc
    | true =>
      cases cl with
      | false =>
        refine ⟨by simp [Dir.Put], ?_, ?_⟩
        · intro i
          simp [Dir.Put, getFile_setFile_ne _ _ _ _ (objectFile_ne_tempFile d i name)]
        · intro _ _ hcl; cases hcl
      | true =>
        cases r with
        | true => simp [PutEnv.allOk] at h
        | false =>
          refine ⟨by simp [Dir.Put], ?_, ?_⟩
          · intro i
            simp [Dir.Put, getFile_setFile_ne _ _ _ _ (objectFile_ne_tempFile d i name)]
          · intro _ _ _
            simp [Dir.Put, getFile_setFile_self]

theorem put_publish_only_by_rename_witness :
    (⟨"t3", true, true, 0, true, false⟩ : PutEnv).allOk = false ∧
    ((dWit.Put [7] fsWit ⟨"t3", true, true, 0, true, false⟩).1 = .error .ioErr ∧
      (∀ i, (dWit.Put [7] fsWit ⟨"t3", true, true, 0, true, false⟩).2.getFile
        (dWit.objectFile i) = fsWit.getFile (dWit.objectFile i)) ∧
      ((⟨"t3", true, true, 0, true, false⟩ : PutEnv).tempOk = true →
        (⟨"t3", true, true, 0, true, false⟩ : PutEnv).copyOk = true →
        (⟨"t3", true, true, 0, true, false⟩ : PutEnv).closeOk = true →
        (dWit.Put [7] fsWit ⟨"t3", true, true, 0, true, false⟩).2.getFile
          (dWit.tempFile ("t3")) = some [7])) :=
  ⟨rfl, put_publish_only_by_rename dWit [7] fsWit ⟨"t3", true, true, 0, true, false⟩ rfl⟩

/-- C8: `Test` is true (with no error) right after a successful `Put` that
produced the ID, false (with no error) after a successful `Remove` of it,
and distinguishes absence (`(false, nil)`) from an injected I/O failure
(`(false, err)`). -/
theorem test_existence_symmetry (d : Dir) (b i : List Nat) (fs : FS)
    (env : PutEnv) (hall : env.allOk = true) :
    ((d.Put b fs env).1 = .ok i → d.Test i (d.Put b fs env).2 false = (true, none)) ∧
    (∀ fs', d.Remove i fs = (.ok (), fs') → fs.isDir (d.objectFile i) = false →
      d.Test i fs' false = (false, none)) ∧
    d.Test i fs true = (false, some .ioErr) ∧
    (fs.getFile (d.objectFile i) = none → fs.isDir (d.objectFile i) = false →
      d.Test i fs false = (false, none)) := by
  obtain ⟨name, t, c, n, cl, r⟩ := env
  simp only [PutEnv.allOk, Bool.and_eq_true] at hall
  obtain ⟨⟨⟨ht, hc⟩, hcl⟩, hr⟩ := hall
  subst ht; subst hc; subst hcl; subst hr
  refine ⟨?_, ?_, by simp [Dir.Test, osOpen], ?_⟩
  · intro hok
    have hid : i = d.hash b := by
      simp [Dir.Put] at hok
      exact hok.symm
    subst hid
    have hget : (d.Put b fs ⟨name, true, true, n, true, true⟩).2.getFile
        (d.objectFile (d.hash b)) = some b := by
      simp [Dir.Put, getFile_setFile_self]
    simp [Dir.Test, osOpen, hget]
  · intro fs' hrm hdir
    have hfs' : fs' = fs.removeFile (d.objectFile i) := by
      unfold Dir.Remove at hrm
      cases hg : fs.getFile (d.objectFile i) with
      | some c₀ => rw [hg] at hrm; exact (Prod.ext_iff.mp hrm).2.symm
      | none => rw [hg] at hrm; cases (Prod.ext_iff.mp hrm).1
    subst hfs'
    have hg' : (fs.removeFile (d.objectFile i)).getFile (d.objectFile i) = none :=
      getFile_removeFile_self fs _
    have hd' : (fs.removeFile (d.objectFile i)).isDir (d.objectFile i) = false := hdir
    simp [Dir.Test, osOpen, hg', hd']
  · intro hg hdir
    simp [Dir.Test, osOpen, hg, hdir]

theorem test_existence_symmetry_witness :
    dWit.Test [1] (dWit.Put [7] fsWit envOk).2 false = (true, none) ∧
    dWit.Test [1] (dWit.Remove [1] fsObj).2 false = (false, none) ∧
    dWit.Test [1] fsObj true = (false, some .ioErr) ∧
    dWit.Test [9] fsObj false = (false, none) :=
  have h₁ := test_existence_symmetry dWit [7] [1] fsObj envOk rfl
  have h₂ := test_existence_symmetry dWit [7] [1] fsWit envOk rfl
  have h₃ := test_existence_symmetry dWit [7] [9] fsObj envOk rfl
  ⟨h₂.1 rfl, h₁.2.1 (dWit.Remove [1] fsObj).2 rfl (by decide),
    h₁.2.2.1, h₃.2.2.2 rfl (by decide)⟩

/-- C10: for the empty ID, `Test` returns `(true, nil)` on any repository
whose directory tree has been created (and where nothing occupies the
`objects/` path as a file): the lookup path degenerates to the `objects/`
directory itself, which opens successfully. -/
theorem test_empty_id_true (d : Dir) (fs : FS)
    (h : fs.getFile (pathJoin (d.path ++ [objectPath])) = none) :
    d.Test [] (d.create fs) false = (true, none) := by
  have hget : (d.create fs).getFile (d.objectFile []) = none := by
    rw [objectFile_nil, getFile_create]
    exact h
  have hdir : (d.create fs).isDir (d.objectFile []) = true := by
    rw [objectFile_nil]
    exact isDir_create_objects d fs
  simp [Dir.Test, osOpen, hget, hdir]

theorem test_empty_id_true_witness :
    dWit.Test [] (dWit.create fsEmpty) false = (true, none) :=
  test_empty_id_true dWit fsEmpty rfl

/-- C7: `Link` with an ID that is not a stored object fails with
`ErrIDDoesNotExist` and leaves the filesystem (in particular `refs/`)
completely unchanged. -/
theorem link_missing_id (d : Dir) (n i : List Nat) (fs : FS) (env : LinkEnv)
    (htf : env.testFail = false) (h : (d.Test i fs false).1 = false) :
    d.Link n i fs env = (.error .idDoesNotExist, fs) := by
  obtain ⟨tf, co, wo⟩ := env
  simp only at htf
  subst htf
  have hpair : d.Test i fs false = (false, none) :=
    Prod.ext h (test_nofail_snd d i fs)
  simp [Dir.Link, hpair]

theorem link_missing_id_witness :
    dWit.Link [120] [9] fsWit ⟨false, true, true⟩ = (.error .idDoesNotExist, fsWit) :=
  link_missing_id dWit [120] [9] fsWit ⟨false, true, true⟩ rfl rfl

/-- C5 counterexample: the source of `Dir.Link` discards the error returned
by `f.Write`.  With the object `[1]` stored, a `Link` whose underlying write
fails still returns success, and the alias file is left truncated — refuting
the claim that a write failure inside `Link` is reported to the caller. -/
theorem link_swallows_write_error_cex :
    (dWit.Link [120] [1] fsObj ⟨false, true, false⟩).1 = .ok () ∧
    (dWit.Link [120] [1] fsObj ⟨false, true, false⟩).2.getFile
      (dWit.refFile [120]) = some [] := by
  exact ⟨rfl, rfl⟩

/-- C5 amended: every failure of `Test`'s probe and of `os.Create` is
propagated by `Link`, but the error of the write of the hex text is
discarded: once creation succeeds on a stored ID, `Link` returns success
whether or not the write succeeded, leaving a truncated alias file behind
when it failed. -/
theorem link_error_propagation_amended (d : Dir) (n i : List Nat) (fs : FS)
    (env : LinkEnv) (hex : (d.Test i fs false).1 = true) :
    (env.testFail = true → d.Link n i fs env = (.error .ioErr, fs)) ∧
    (env.testFail = false → env.createOk = false →
      d.Link n i fs env = (.error .ioErr, fs)) ∧
    (env.testFail = false → env.createOk = true →
      (d.Link n i fs env).1 = .ok () ∧
      (env.writeOk = false →
        (d.Link n i fs env).2.getFile (d.refFile n) = some [])) := by
  obtain ⟨tf, co, wo⟩ := env
  have hpair : d.Test i fs false = (true, none) :=
    Prod.ext hex (test_nofail_snd d i fs)
  refine ⟨?_, ?_, ?_⟩
  · intro htf
    simp only at htf
    subst htf
    simp [Dir.Link, Dir.Test, osOpen]
  · intro htf hco
    simp only at htf hco
    subst htf; subst hco
    simp [Dir.Link, hpair]
  · intro htf hco
    simp only at htf hco
    subst htf; subst hco
    cases wo with
    | true => exact ⟨by simp [Dir.Link, hpair], fun hwo => by cases hwo⟩
    | false =>
      refine ⟨by simp [Dir.Link, hpair], fun _ => ?_⟩
      simp [Dir.Link, hpair, getFile_setFile_self]

theorem link_error_propagation_amended_witness :
    (dWit.Link [120] [1] fsObj ⟨false, true, false⟩).1 = .ok () ∧
    (dWit.Link [120] [1] fsObj ⟨false, true, false⟩).2.getFile
      (dWit.refFile [120]) = some [] :=
  have h := link_error_propagation_amended dWit [120] [1] fsObj
    ⟨false, true, false⟩ rfl
  have h₃ := h.2.2 rfl rfl
  ⟨h₃.1, h₃.2 rfl⟩

/-- C3: for any name and any ID of a currently stored object (an ID of the
configured digest length), `Link` succeeds and a subsequent `Resolve`
returns that very ID; after a successful `Unlink`, `Resolve` fails with the
not-found error. -/
theorem alias_lifecycle (d : Dir) (n i : List Nat) (fs : FS)
    (hex : (d.Test i fs false).1 = true)
    (hlen : i.length = d.hashSize)
    (hbytes : ∀ b ∈ i, b < 256)
    (hdir : fs.isDir (d.refFile n) = false) :
    (d.Link n i fs ⟨false, true, true⟩).1 = .ok () ∧
    d.Resolve n (d.Link n i fs ⟨false, true, true⟩).2 false = .ok i ∧
    d.Unlink n (d.Link n i fs ⟨false, true, true⟩).2 =
      (.ok (), ((d.Link n i fs ⟨false, true, true⟩).2).removeFile (d.refFile n)) ∧
    d.Resolve n (d.Unlink n (d.Link n i fs ⟨false, true, true⟩).2).2 false =
      .error .notExist := by
  have hpair : d.Test i fs false = (true, none) :=
    Prod.ext hex (test_nofail_snd d i fs)
  have hfs1 : (d.Link n i fs ⟨false, true, true⟩).2 =
      (fs.setFile (d.refFile n) []).setFile (d.refFile n) (hexEncodeBytes i) := by
    simp [Dir.Link, hpair]
  have hget1 : (d.Link n i fs ⟨false, true, true⟩).2.getFile (d.refFile n) =
      some (hexEncodeBytes i) := by
    rw [hfs1]
    exact getFile_setFile_self _ _ _
  have hlen2 : (hexEncodeBytes i).length = d.hashSize * 2 := by
    rw [hexEncodeBytes_length, hlen]
    omega
  have htake : (hexEncodeBytes i).take (d.hashSize * 2) = hexEncodeBytes i := by
    rw [← hlen2]
    exact List.take_length _
  refine ⟨by simp [Dir.Link, hpair], ?_, by simp [Dir.Unlink, hget1], ?_⟩
  · simp [Dir.Resolve, osOpen, hget1, hlen2, htake, hexDecode_hexEncode i hbytes]
  · have hu : (d.Unlink n (d.Link n i fs ⟨false, true, true⟩).2).2 =
        ((d.Link n i fs ⟨false, true, true⟩).2).removeFile (d.refFile n) := by
      simp [Dir.Unlink, hget1]
    rw [hu]
    have hg : (((d.Link n i fs ⟨false, true, true⟩).2).removeFile
        (d.refFile n)).getFile (d.refFile n) = none :=
      getFile_removeFile_self _ _
    have hd : (((d.Link n i fs ⟨false, true, true⟩).2).removeFile
        (d.refFile n)).isDir (d.refFile n) = false := by
      rw [isDir_removeFile, hfs1, isDir_setFile, isDir_setFile]
      exact hdir
    simp [Dir.Resolve, osOpen, hg, hd]

theorem alias_lifecycle_witness :
    (dWit.Link [120] [1] fsObj ⟨false, true, true⟩).1 = .ok () ∧
    dWit.Resolve [120] (dWit.Link [120] [1] fsObj ⟨false, true, true⟩).2 false =
      .ok [1] ∧
    dWit.Resolve [120]
      (dWit.Unlink [120] (dWit.Link [120] [1] fsObj ⟨false, true, true⟩).2).2 false =
      .error .notExist :=
  have h := alias_lifecycle dWit [120] [1] fsObj rfl rfl (by decide) (by decide)
  ⟨h.1, h.2.1, h.2.2.2⟩

/-- C6: `Resolve` fails with the not-found error when the alias file is
absent; reads exactly `2 × digestSize` bytes, failing with a corrupt-data
class error (`io.EOF`/`io.ErrUnexpectedEOF` on a short file, a hex decode
error on malformed text) and succeeding with the decode of exactly the first
`2 × digestSize` bytes otherwise; and consults nothing but the alias file —
in particular it never checks that the resolved ID still names a stored
object. -/
theorem resolve_spec (d : Dir) (n : List Nat) (fs : FS) :
    (fs.getFile (d.refFile n) = none → fs.isDir (d.refFile n) = false →
      d.Resolve n fs false = .error .notExist) ∧
    (∀ c, fs.getFile (d.refFile n) = some c →
      (c.length < d.hashSize * 2 ∨
        (∃ e₀, hexDecodeBytes (c.take (d.hashSize * 2)) = .error e₀)) →
      ∃ e, d.Resolve n fs false = .error e ∧ e.isCorrupt = true) ∧
    (∀ c id, fs.getFile (d.refFile n) = some c →
      d.hashSize * 2 ≤ c.length →
      hexDecodeBytes (c.take (d.hashSize * 2)) = .ok id →
      d.Resolve n fs false = .ok id) ∧
    (∀ fs' : FS, fs'.getFile (d.refFile n) = fs.getFile (d.refFile n) →
      fs'.dirs = fs.dirs →
      d.Resolve n fs' false = d.Resolve n fs false) := by
  refine ⟨?_, ?_, ?_, ?_⟩
  · intro hg hd
    simp [Dir.Resolve, osOpen, hg, hd]
  · intro c hc hbad
    by_cases hlt : c.length < d.hashSize * 2
    · by_cases h0 : c.length = 0
      · refine ⟨.eof, ?_, rfl⟩
        simp [Dir.Resolve, osOpen, hc, hlt, h0]
        intro hz
        exact absurd hlt (by omega)
      · refine ⟨.unexpectedEOF, ?_, rfl⟩
        simp [Dir.Resolve, osOpen, hc, hlt, h0]
    · rcases hbad with hbad | ⟨e₀, he₀⟩
      · exact absurd hbad hlt
      · refine ⟨e₀, ?_, hexDecodeBytes_error_corrupt _ e₀ he₀⟩
        simp [Dir.Resolve, osOpen, hc, hlt, he₀]
  · intro c id hc hle hdec
    have hlt : ¬ c.length < d.hashSize * 2 := by omega
    simp [Dir.Resolve, osOpen, hc, hlt, hdec]
  · intro fs' hg hd
    have hopen : osOpen fs' false (d.refFile n) = osOpen fs false (d.refFile n) := by
      simp [osOpen, FS.isDir, hg, hd]
    unfold Dir.Resolve
    rw [hopen]

theorem resolve_spec_witness :
    dWit.Resolve [120] fsLinked false = .ok [1] ∧
    dWit.Resolve [121] fsLinked false = .error .notExist ∧
    (∃ e, dWit.Resolve [120]
      (fsLinked.setFile (dWit.refFile [120]) [48]) false = .error e ∧
      e.isCorrupt = true) :=
  have h := resolve_spec dWit [120] fsLinked
  have h₂ := resolve_spec dWit [121] fsLinked
  have h₃ := resolve_spec dWit [120] (fsLinked.setFile (dWit.refFile [120]) [48])
  ⟨h.2.2.1 (hexEncodeBytes [1]) [1] rfl (by decide) rfl,
    h₂.1 rfl (by decide),
    h₃.2.1 [48] (getFile_setFile_self _ _ _) (Or.inl (by decide))⟩

/-- C9: for every ID, `EqualString` of its own hex text returns true, and for
every byte string that is not valid hex of even length, `EqualString` returns
the hex decode error (`ErrLength` or `InvalidByteError`) rather than silently
returning false. -/
theorem equalString_roundtrip (i : List Nat) (hi : ∀ b ∈ i, b < 256) :
    ID.EqualString i (ID.string i) = .ok true ∧
    ∀ s : List Nat, isValidHex s = false →
      ∃ e, ID.EqualString i s = .error e ∧
        (e = .errLength ∨ e = .invalidByte) := by
  constructor
  · unfold ID.EqualString ID.string
    rw [hexDecode_hexEncode i hi]
    simp [ID.Equal]
  · intro s hs
    cases hd : hexDecodeBytes s with
    | error e =>
      exact ⟨e, by simp [ID.EqualString, hd], hexDecodeBytes_error_cases s e hd⟩
    | ok t =>
      exact absurd (hexDecodeBytes_ok_valid s t hd) (by simp [hs])

theorem equalString_roundtrip_witness :
    ID.EqualString [171] (ID.string [171]) = .ok true ∧
    ∃ e, ID.EqualString [171] [103] = .error e ∧
      (e = .errLength ∨ e = .invalidByte) :=
  have h := equalString_roundtrip [171] (by decide)
  ⟨h.1, h.2 [103] (by decide)⟩

end Storage
